import Mathlib

/-!
Verification of the AES-128 forward cipher implemented in
`Block Ciphers/aes.py`.  Bytes are modelled as `Nat` (the source works on
Python ints in 0..255), byte strings as `List Nat`, and the `AES` class as a
namespace whose constructor returns the computed key schedule or an error.
-/

set_option maxRecDepth 100000

/-- The AES S-box table `S_BOX` from the source, a 256-entry list. -/
def S_BOX : List Nat := [
  0x63, 0x7c, 0x77, 0x7b, 0xf2, 0x6b, 0x6f, 0xc5, 0x30, 0x01, 0x67, 0x2b, 0xfe, 0xd7, 0xab, 0x76,
  0xca, 0x82, 0xc9, 0x7d, 0xfa, 0x59, 0x47, 0xf0, 0xad, 0xd4, 0xa2, 0xaf, 0x9c, 0xa4, 0x72, 0xc0,
  0xb7, 0xfd, 0x93, 0x26, 0x36, 0x3f, 0xf7, 0xcc, 0x34, 0xa5, 0xe5, 0xf1, 0x71, 0xd8, 0x31, 0x15,
  0x04, 0xc7, 0x23, 0xc3, 0x18, 0x96, 0x05, 0x9a, 0x07, 0x12, 0x80, 0xe2, 0xeb, 0x27, 0xb2, 0x75,
  0x09, 0x83, 0x2c, 0x1a, 0x1b, 0x6e, 0x5a, 0xa0, 0x52, 0x3b, 0xd6, 0xb3, 0x29, 0xe3, 0x2f, 0x84,
  0x53, 0xd1, 0x00, 0xed, 0x20, 0xfc, 0xb1, 0x5b, 0x6a, 0xcb, 0xbe, 0x39, 0x4a, 0x4c, 0x58, 0xcf,
  0xd0, 0xef, 0xaa, 0xfb, 0x43, 0x4d, 0x33, 0x85, 0x45, 0xf9, 0x02, 0x7f, 0x50, 0x3c, 0x9f, 0xa8,
  0x51, 0xa3, 0x40, 0x8f, 0x92, 0x9d, 0x38, 0xf5, 0xbc, 0xb6, 0xda, 0x21, 0x10, 0xff, 0xf3, 0xd2,
  0xcd, 0x0c, 0x13, 0xec, 0x5f, 0x97, 0x44, 0x17, 0xc4, 0xa7, 0x7e, 0x3d, 0x64, 0x5d, 0x19, 0x73,
  0x60, 0x81, 0x4f, 0xdc, 0x22, 0x2a, 0x90, 0x88, 0x46, 0xee, 0xb8, 0x14, 0xde, 0x5e, 0x0b, 0xdb,
  0xe0, 0x32, 0x3a, 0x0a, 0x49, 0x06, 0x24, 0x5c, 0xc2, 0xd3, 0xac, 0x62, 0x91, 0x95, 0xe4, 0x79,
  0xe7, 0xc8, 0x37, 0x6d, 0x8d, 0xd5, 0x4e, 0xa9, 0x6c, 0x56, 0xf4, 0xea, 0x65, 0x7a, 0xae, 0x08,
  0xba, 0x78, 0x25, 0x2e, 0x1c, 0xa6, 0xb4, 0xc6, 0xe8, 0xdd, 0x74, 0x1f, 0x4b, 0xbd, 0x8b, 0x8a,
  0x70, 0x3e, 0xb5, 0x66, 0x48, 0x03, 0xf6, 0x0e, 0x61, 0x35, 0x57, 0xb9, 0x86, 0xc1, 0x1d, 0x9e,
  0xe1, 0xf8, 0x98, 0x11, 0x69, 0xd9, 0x8e, 0x94, 0x9b, 0x1e, 0x87, 0xe9, 0xce, 0x55, 0x28, 0xdf,
  0x8c, 0xa1, 0x89, 0x0d, 0xbf, 0xe6, 0x42, 0x68, 0x41, 0x99, 0x2d, 0x0f, 0xb0, 0x54, 0xbb, 0x16]

/-- The round-constant table `RCON` from the source. -/
def RCON : List Nat := [0x01, 0x02, 0x04, 0x08, 0x10, 0x20, 0x40, 0x80, 0x1B, 0x36]

namespace AES

/-- `AES.add_round_key`: byte-wise XOR of the state with a round key.
Python `zip` truncates to the shorter operand, as does `List.zipWith`. -/
def add_round_key (state round_key : List Nat) : List Nat :=
  List.zipWith (fun b k => b ^^^ k) state round_key

/-- `AES.byte_substitution`: replace every byte by its S-box image
(`S_BOX[b]`, embedded as `getD` with default 0). -/
def byte_substitution (state : List Nat) : List Nat :=
  state.map (fun b => S_BOX.getD b 0)

/-- `AES.shift_rows`: view the state as a column-major 4x4 matrix
(`matrix[r][c] = state[r + 4*c]`), rotate row r left by r for r = 1..3, and
flatten back column-major (`c` outer, `r` inner). -/
def shift_rows (state : List Nat) : List Nat :=
  let matrix := (List.range 4).map (fun r => (List.range 4).map (fun c => state.getD (r + 4 * c) 0))
  let shifted := (List.range 4).map (fun r =>
    let row := matrix.getD r []
    if r = 0 then row else row.drop r ++ row.take r)
  ((List.range 4).map (fun c => (List.range 4).map (fun r => (shifted.getD r []).getD c 0))).flatten

/-- `AES.mul_by_02`: `((b << 1) ^ 0x1B) & 0xFF if b & 0x80 else (b << 1) & 0xFF`. -/
def mul_by_02 (b : Nat) : Nat :=
  if b &&& 0x80 ≠ 0 then ((b <<< 1) ^^^ 0x1B) &&& 0xFF else (b <<< 1) &&& 0xFF

/-- `AES.mul_by_03`: `mul_by_02(b) ^ b`. -/
def mul_by_03 (b : Nat) : Nat := mul_by_02 b ^^^ b

/-- `AES.mul_by_01`: the identity. -/
def mul_by_01 (b : Nat) : Nat := b

/-- `AES.mix_single_column`: the MixColumns matrix applied to one column
(indexing `a[0]..a[3]` embedded as `getD`). -/
def mix_single_column (column : List Nat) : List Nat :=
  let a := column
  [mul_by_02 (a.getD 0 0) ^^^ mul_by_03 (a.getD 1 0) ^^^ a.getD 2 0 ^^^ a.getD 3 0,
   a.getD 0 0 ^^^ mul_by_02 (a.getD 1 0) ^^^ mul_by_03 (a.getD 2 0) ^^^ a.getD 3 0,
   a.getD 0 0 ^^^ a.getD 1 0 ^^^ mul_by_02 (a.getD 2 0) ^^^ mul_by_03 (a.getD 3 0),
   mul_by_03 (a.getD 0 0) ^^^ a.getD 1 0 ^^^ a.getD 2 0 ^^^ mul_by_02 (a.getD 3 0)]

/-- `AES.mix_column`: split the state into 4 column-major columns
(`matrix[c][r] = state[r + 4*c]`), mix each, and flatten back with `c` outer
and `r` inner. -/
def mix_column (state : List Nat) : List Nat :=
  let matrix := (List.range 4).map (fun c => (List.range 4).map (fun r => state.getD (r + 4 * c) 0))
  let mixed := matrix.map mix_single_column
  ((List.range 4).map (fun c => (List.range 4).map (fun r => (mixed.getD c []).getD r 0))).flatten

/-- One iteration of the `while` loop body of `AES.key_expansion`, acting on
the accumulated `key_columns`.  The Python loop counter `i` always equals
`len(key_columns)` at the top of the loop (both start at 4 and are bumped
together), so it is recovered as `cols.length`. -/
def expand_word (cols : List (List Nat)) : List Nat :=
  let i := cols.length
  let word := cols.getLast?.getD []
  let word :=
    if i % 4 = 0 then
      let w := word.drop 1 ++ word.take 1
      let w := w.map (fun b => S_BOX.getD b 0)
      w.set 0 (w.getD 0 0 ^^^ RCON.getD (i / 4 - 1) 0)
    else word
  List.zipWith (fun a b => a ^^^ b) word (cols.getD (i - 4) [])

/-- The `while len(key_columns) < 44` loop of `AES.key_expansion`: starting
from 4 columns it appends one word per iteration, hence exactly 40
iterations, modelled with fuel 40. -/
def key_expansion_loop : Nat → List (List Nat) → List (List Nat)
  | 0, cols => cols
  | n + 1, cols => key_expansion_loop n (cols ++ [expand_word cols])

/-- `AES.key_expansion`: split the key into 4 words (`key[i:i+4]` for
`i = 0,4,8,12`), run the expansion loop to 44 words, and regroup into 11
round keys of 4 concatenated words each. -/
def key_expansion (key : List Nat) : List (List Nat) :=
  let key_columns := [key.take 4, (key.drop 4).take 4, (key.drop 8).take 4, (key.drop 12).take 4]
  let key_columns := key_expansion_loop 40 key_columns
  (List.range 11).map (fun k => ((key_columns.drop (4 * k)).take 4).flatten)

/-- The error message of the `ValueError` raised by `AES.__init__`. -/
def invalid_key_size_msg : String :=
  "Invalid key size: AES-128 requires a 16-byte (128-bit) key."

/-- `AES.__init__`: reject keys whose length is not 16, otherwise compute and
store the round keys (the stored state that `encrypt` uses). -/
def mk (key : List Nat) : Except String (List (List Nat)) :=
  if key.length ≠ 16 then Except.error invalid_key_size_msg
  else Except.ok (key_expansion key)

/-- `AES.round`: one main round (SubBytes, ShiftRows, MixColumns, AddRoundKey). -/
def round (state round_key : List Nat) : List Nat :=
  let state := byte_substitution state
  let state := shift_rows state
  let state := mix_column state
  add_round_key state round_key

/-- `AES.final_round`: the last round, without MixColumns. -/
def final_round (state round_key : List Nat) : List Nat :=
  let state := byte_substitution state
  let state := shift_rows state
  add_round_key state round_key

/-- `AES.partially_encrypt`: initial AddRoundKey with round key 0, then the
main round for `i in range(1, num_rounds)` (embedded as
`List.range' 1 (num_rounds - 1)`), then the final round exactly when
`num_rounds == 10`. -/
def partially_encrypt (round_keys : List (List Nat)) (plaintext : List Nat)
    (num_rounds : Nat) : List Nat :=
  let state := add_round_key plaintext (round_keys.getD 0 [])
  let state := (List.range' 1 (num_rounds - 1)).foldl
    (fun s i => AES.round s (round_keys.getD i [])) state
  if num_rounds = 10 then final_round state (round_keys.getD 10 []) else state

/-- `AES.encrypt`: initial AddRoundKey, main rounds `i in range(1, 10)`, then
the final round with round key 10. -/
def encrypt (round_keys : List (List Nat)) (plaintext : List Nat) : List Nat :=
  let state := add_round_key plaintext (round_keys.getD 0 [])
  let state := (List.range' 1 9).foldl
    (fun s i => AES.round s (round_keys.getD i [])) state
  final_round state (round_keys.getD 10 [])

/-- Tag for the kind of round transformation `partially_encrypt` executes
after the initial whitening: a main round or the final (MixColumns-free)
round. -/
inductive RoundKind where
  | main : RoundKind
  | final : RoundKind
deriving DecidableEq

/-- `AES.partially_encrypt` instrumented to record, in order, which round
transformations it executes after the initial AddRoundKey whitening.  The
control flow is exactly that of `partially_encrypt`; the first component is
the resulting state and the second the list of executed rounds. -/
def partially_encrypt_trace (round_keys : List (List Nat)) (plaintext : List Nat)
    (num_rounds : Nat) : List Nat × List RoundKind :=
  let state := add_round_key plaintext (round_keys.getD 0 [])
  let st := (List.range' 1 (num_rounds - 1)).foldl
    (fun st i => (AES.round st.1 (round_keys.getD i []), st.2 ++ [RoundKind.main]))
    (state, [])
  if num_rounds = 10 then
    (final_round st.1 (round_keys.getD 10 []), st.2 ++ [RoundKind.final])
  else st

end AES

/-- GF(2^8) multiplication as the spec describes it (§4.2 and the glossary):
carry-less polynomial multiplication over GF(2) of the two byte polynomials,
reduced modulo the AES irreducible polynomial x^8+x^4+x^3+x+1 (0x11B).
Written independently of the source's `mul_by_02`/`mul_by_03` shortcuts. -/
def clmul (a b : Nat) : Nat :=
  (List.range 8).foldl (fun acc i => if b.testBit i then acc ^^^ (a <<< i) else acc) 0

/-- Reduction of a GF(2) polynomial of degree at most 15 (as a bit string)
modulo x^8+x^4+x^3+x+1: clear every bit from 15 down to 8 by XORing in the
modulus shifted to that bit. -/
def poly_reduce (a : Nat) : Nat :=
  [15, 14, 13, 12, 11, 10, 9, 8].foldl
    (fun x i => if x.testBit i then x ^^^ (0x11B <<< (i - 8)) else x) a

/-- GF(2^8) product of two bytes under the AES reduction polynomial. -/
def gf256_mul (a b : Nat) : Nat := poly_reduce (clmul a b)

/-- FIPS-197 appendix C key. -/
def kat_key : List Nat :=
  [0x00, 0x01, 0x02, 0x03, 0x04, 0x05, 0x06, 0x07,
   0x08, 0x09, 0x0a, 0x0b, 0x0c, 0x0d, 0x0e, 0x0f]

/-- FIPS-197 appendix C plaintext. -/
def kat_pt : List Nat :=
  [0x00, 0x11, 0x22, 0x33, 0x44, 0x55, 0x66, 0x77,
   0x88, 0x99, 0xaa, 0xbb, 0xcc, 0xdd, 0xee, 0xff]

/-- FIPS-197 appendix C ciphertext. -/
def kat_ct : List Nat :=
  [0x69, 0xc4, 0xe0, 0xd8, 0x6a, 0x7b, 0x04, 0x30,
   0xd8, 0xcd, 0xb7, 0x80, 0x70, 0xb4, 0xc5, 0x5a]

/-! ## Helper lemmas -/

/-- `shift_rows` evaluated on a symbolic state: the standard AES row-shift
permutation of the 16 byte positions. -/
lemma shift_rows_eval (s : List Nat) :
    AES.shift_rows s =
      [s.getD 0 0, s.getD 5 0, s.getD 10 0, s.getD 15 0,
       s.getD 4 0, s.getD 9 0, s.getD 14 0, s.getD 3 0,
       s.getD 8 0, s.getD 13 0, s.getD 2 0, s.getD 7 0,
       s.getD 12 0, s.getD 1 0, s.getD 6 0, s.getD 11 0] := rfl

/-- `mix_column` evaluated on a symbolic state. -/
lemma mix_column_eval (s : List Nat) :
    AES.mix_column s =
      [AES.mul_by_02 (s.getD 0 0) ^^^ AES.mul_by_03 (s.getD 1 0) ^^^ s.getD 2 0 ^^^ s.getD 3 0,
       s.getD 0 0 ^^^ AES.mul_by_02 (s.getD 1 0) ^^^ AES.mul_by_03 (s.getD 2 0) ^^^ s.getD 3 0,
       s.getD 0 0 ^^^ s.getD 1 0 ^^^ AES.mul_by_02 (s.getD 2 0) ^^^ AES.mul_by_03 (s.getD 3 0),
       AES.mul_by_03 (s.getD 0 0) ^^^ s.getD 1 0 ^^^ s.getD 2 0 ^^^ AES.mul_by_02 (s.getD 3 0),
       AES.mul_by_02 (s.getD 4 0) ^^^ AES.mul_by_03 (s.getD 5 0) ^^^ s.getD 6 0 ^^^ s.getD 7 0,
       s.getD 4 0 ^^^ AES.mul_by_02 (s.getD 5 0) ^^^ AES.mul_by_03 (s.getD 6 0) ^^^ s.getD 7 0,
       s.getD 4 0 ^^^ s.getD 5 0 ^^^ AES.mul_by_02 (s.getD 6 0) ^^^ AES.mul_by_03 (s.getD 7 0),
       AES.mul_by_03 (s.getD 4 0) ^^^ s.getD 5 0 ^^^ s.getD 6 0 ^^^ AES.mul_by_02 (s.getD 7 0),
       AES.mul_by_02 (s.getD 8 0) ^^^ AES.mul_by_03 (s.getD 9 0) ^^^ s.getD 10 0 ^^^ s.getD 11 0,
       s.getD 8 0 ^^^ AES.mul_by_02 (s.getD 9 0) ^^^ AES.mul_by_03 (s.getD 10 0) ^^^ s.getD 11 0,
       s.getD 8 0 ^^^ s.getD 9 0 ^^^ AES.mul_by_02 (s.getD 10 0) ^^^ AES.mul_by_03 (s.getD 11 0),
       AES.mul_by_03 (s.getD 8 0) ^^^ s.getD 9 0 ^^^ s.getD 10 0 ^^^ AES.mul_by_02 (s.getD 11 0),
       AES.mul_by_02 (s.getD 12 0) ^^^ AES.mul_by_03 (s.getD 13 0) ^^^ s.getD 14 0 ^^^ s.getD 15 0,
       s.getD 12 0 ^^^ AES.mul_by_02 (s.getD 13 0) ^^^ AES.mul_by_03 (s.getD 14 0) ^^^ s.getD 15 0,
       s.getD 12 0 ^^^ s.getD 13 0 ^^^ AES.mul_by_02 (s.getD 14 0) ^^^ AES.mul_by_03 (s.getD 15 0),
       AES.mul_by_03 (s.getD 12 0) ^^^ s.getD 13 0 ^^^ s.getD 14 0 ^^^ AES.mul_by_02 (s.getD 15 0)]
    := rfl

/-- `mul_by_02` agrees with GF(2^8) multiplication by 2 on all bytes. -/
lemma mul_by_02_eq_gf256_mul : ∀ b : Nat, b < 256 → AES.mul_by_02 b = gf256_mul 2 b := by
  decide

/-- `mul_by_03` agrees with GF(2^8) multiplication by 3 on all bytes. -/
lemma mul_by_03_eq_gf256_mul : ∀ b : Nat, b < 256 → AES.mul_by_03 b = gf256_mul 3 b := by
  decide

/-- An in-range `getD` is an element of the list. -/
lemma getD_mem_of_lt {α : Type} (l : List α) (d : α) (i : Nat) (h : i < l.length) :
    l.getD i d ∈ l := by
  rw [List.getD_eq_getElem?_getD, List.getElem?_eq_getElem h]
  exact List.getElem_mem h

/-- Every `getD` of a list of bytes is a byte (the default 0 included). -/
lemma getD_lt_256 (s : List Nat) (hb : ∀ b ∈ s, b < 256) (i : Nat) : s.getD i 0 < 256 := by
  by_cases h : i < s.length
  · exact hb _ (getD_mem_of_lt s 0 i h)
  · rw [List.getD_eq_getElem?_getD, List.getElem?_eq_none (by omega)]
    decide

/-- XORing twice with the same list of equal length is the identity. -/
lemma zipWith_xor_cancel : ∀ (s k : List Nat), s.length = k.length →
    List.zipWith (fun b k => b ^^^ k) (List.zipWith (fun b k => b ^^^ k) s k) k = s := by
  intro s
  induction s with
  | nil => intro k _; rfl
  | cons a s ih =>
    intro k h
    cases k with
    | nil => simp at h
    | cons b k =>
      simp only [List.zipWith]
      rw [Nat.xor_cancel_right, ih k (by simpa using h)]

/-- `zipWith` only reads the prefix of its first list up to the second list's
length. -/
lemma zipWith_take_left (f : Nat → Nat → Nat) : ∀ (l2 l1 : List Nat),
    List.zipWith f (l1.take l2.length) l2 = List.zipWith f l1 l2 := by
  intro l2
  induction l2 with
  | nil => intro l1; simp
  | cons b t ih =>
    intro l1
    cases l1 with
    | nil => simp
    | cons a s => simp only [List.length_cons, List.take_succ_cons, List.zipWith, ih]

/-! ## Theorems for the claims -/

/-- C1: the cipher constructed with the FIPS-197 appendix C key
`000102030405060708090a0b0c0d0e0f` encrypts the plaintext
`00112233445566778899aabbccddeeff` to exactly the 16-byte ciphertext
`69c4e0d86a7b0430d8cdb78070b4c55a`. -/
theorem encrypt_kat :
    AES.mk kat_key = Except.ok (AES.key_expansion kat_key) ∧
    AES.encrypt (AES.key_expansion kat_key) kat_pt = kat_ct := by
  constructor
  · rfl
  · decide

/-- C2: for every cipher constructed with a 16-byte key and every plaintext,
`partially_encrypt` with `num_rounds = 10` returns the same block as
`encrypt`. -/
theorem partially_encrypt_ten_eq_encrypt (key p : List Nat) (_h : key.length = 16) :
    AES.partially_encrypt (AES.key_expansion key) p 10
      = AES.encrypt (AES.key_expansion key) p := rfl

theorem partially_encrypt_ten_eq_encrypt_witness :
    AES.partially_encrypt (AES.key_expansion kat_key) kat_pt 10
      = AES.encrypt (AES.key_expansion kat_key) kat_pt :=
  partially_encrypt_ten_eq_encrypt kat_key kat_pt rfl

/-- C7: for every byte `b`, `mul_by_02 b` is `b` shifted left one bit, XORed
with `0x1B` and masked to 8 bits exactly when bit `0x80` of `b` was set; this
equals the GF(2^8) product of `b` with the polynomial x modulo
x^8+x^4+x^3+x+1, and the result is always a byte. -/
theorem mul_by_02_spec : ∀ b : Nat, b ≤ 255 →
    AES.mul_by_02 b
        = (if b &&& 0x80 ≠ 0 then ((b <<< 1) ^^^ 0x1B) &&& 0xFF else (b <<< 1) &&& 0xFF)
      ∧ AES.mul_by_02 b = gf256_mul 2 b ∧ AES.mul_by_02 b ≤ 255 := by
  decide

theorem mul_by_02_spec_witness :
    AES.mul_by_02 0x80 = gf256_mul 2 0x80 ∧ AES.mul_by_02 0x80 ≤ 255 :=
  ⟨(mul_by_02_spec 0x80 (by decide)).2.1, (mul_by_02_spec 0x80 (by decide)).2.2⟩

/-- C9: `add_round_key` is self-inverse on 16-byte states and round keys. -/
theorem add_round_key_self_inverse (s k : List Nat) (hs : s.length = 16)
    (hk : k.length = 16) :
    AES.add_round_key (AES.add_round_key s k) k = s :=
  zipWith_xor_cancel s k (by rw [hs, hk])

theorem add_round_key_self_inverse_witness :
    AES.add_round_key (AES.add_round_key kat_pt kat_key) kat_key = kat_pt :=
  add_round_key_self_inverse kat_pt kat_key rfl rfl

/-- C8: `shift_rows` rotates each row r of the column-major state left by r
positions: the output byte at index `r + 4*c` is the input byte at index
`r + 4*((c + r) % 4)`. -/
theorem shift_rows_spec (s : List Nat) (_h : s.length = 16) (r c : Nat)
    (hr : r < 4) (hc : c < 4) :
    (AES.shift_rows s).length = 16 ∧
    (AES.shift_rows s).getD (r + 4 * c) 0 = s.getD (r + 4 * ((c + r) % 4)) 0 := by
  refine ⟨by rw [shift_rows_eval]; rfl, ?_⟩
  interval_cases r <;> interval_cases c <;> rw [shift_rows_eval] <;> rfl

theorem shift_rows_spec_witness :
    (AES.shift_rows kat_pt).length = 16 ∧
    (AES.shift_rows kat_pt).getD (1 + 4 * 2) 0 = kat_pt.getD (1 + 4 * ((2 + 1) % 4)) 0 :=
  shift_rows_spec kat_pt rfl 1 2 (by decide) (by decide)

/-- C6: on a 16-byte state of bytes, `mix_column` maps the column-major
column c, `[a0,a1,a2,a3]` at indices `4*c .. 4*c+3`, to
`[2·a0⊕3·a1⊕a2⊕a3, a0⊕2·a1⊕3·a2⊕a3, a0⊕a1⊕2·a2⊕3·a3, 3·a0⊕a1⊕a2⊕2·a3]`
written back at the same indices, where `·` is GF(2^8) multiplication under
the AES reduction polynomial `gf256_mul` and `⊕` is byte-wise XOR. -/
theorem mix_column_spec (s : List Nat) (_h : s.length = 16) (hb : ∀ b ∈ s, b < 256)
    (c : Nat) (hc : c < 4) :
    (AES.mix_column s).length = 16 ∧
    (AES.mix_column s).getD (4 * c) 0 =
      gf256_mul 2 (s.getD (4 * c) 0) ^^^ gf256_mul 3 (s.getD (4 * c + 1) 0) ^^^
        s.getD (4 * c + 2) 0 ^^^ s.getD (4 * c + 3) 0 ∧
    (AES.mix_column s).getD (4 * c + 1) 0 =
      s.getD (4 * c) 0 ^^^ gf256_mul 2 (s.getD (4 * c + 1) 0) ^^^
        gf256_mul 3 (s.getD (4 * c + 2) 0) ^^^ s.getD (4 * c + 3) 0 ∧
    (AES.mix_column s).getD (4 * c + 2) 0 =
      s.getD (4 * c) 0 ^^^ s.getD (4 * c + 1) 0 ^^^
        gf256_mul 2 (s.getD (4 * c + 2) 0) ^^^ gf256_mul 3 (s.getD (4 * c + 3) 0) ∧
    (AES.mix_column s).getD (4 * c + 3) 0 =
      gf256_mul 3 (s.getD (4 * c) 0) ^^^ s.getD (4 * c + 1) 0 ^^^
        s.getD (4 * c + 2) 0 ^^^ gf256_mul 2 (s.getD (4 * c + 3) 0) := by
  have e2 : ∀ i : Nat, AES.mul_by_02 (s.getD i 0) = gf256_mul 2 (s.getD i 0) :=
    fun i => mul_by_02_eq_gf256_mul _ (getD_lt_256 s hb i)
  have e3 : ∀ i : Nat, AES.mul_by_03 (s.getD i 0) = gf256_mul 3 (s.getD i 0) :=
    fun i => mul_by_03_eq_gf256_mul _ (getD_lt_256 s hb i)
  interval_cases c <;>
    exact ⟨by rw [mix_column_eval]; rfl,
      by rw [mix_column_eval]; simp only [e2, e3]; rfl,
      by rw [mix_column_eval]; simp only [e2, e3]; rfl,
      by rw [mix_column_eval]; simp only [e2, e3]; rfl,
      by rw [mix_column_eval]; simp only [e2, e3]; rfl⟩

theorem mix_column_spec_witness :
    (AES.mix_column kat_pt).length = 16 ∧
    (AES.mix_column kat_pt).getD 0 0 =
      gf256_mul 2 (kat_pt.getD 0 0) ^^^ gf256_mul 3 (kat_pt.getD 1 0) ^^^
        kat_pt.getD 2 0 ^^^ kat_pt.getD 3 0 ∧
    (AES.mix_column kat_pt).getD 1 0 =
      kat_pt.getD 0 0 ^^^ gf256_mul 2 (kat_pt.getD 1 0) ^^^
        gf256_mul 3 (kat_pt.getD 2 0) ^^^ kat_pt.getD 3 0 ∧
    (AES.mix_column kat_pt).getD 2 0 =
      kat_pt.getD 0 0 ^^^ kat_pt.getD 1 0 ^^^
        gf256_mul 2 (kat_pt.getD 2 0) ^^^ gf256_mul 3 (kat_pt.getD 3 0) ∧
    (AES.mix_column kat_pt).getD 3 0 =
      gf256_mul 3 (kat_pt.getD 0 0) ^^^ kat_pt.getD 1 0 ^^^
        kat_pt.getD 2 0 ^^^ gf256_mul 2 (kat_pt.getD 3 0) :=
  mix_column_spec kat_pt rfl (by decide) 0 (by decide)

/-- The first component of the instrumented fold is the plain fold. -/
lemma foldl_trace_fst (rks : List (List Nat)) : ∀ (l : List Nat) (s : List Nat)
    (t : List AES.RoundKind),
    ((l.foldl (fun st i => (AES.round st.1 (rks.getD i []), st.2 ++ [AES.RoundKind.main]))
        (s, t)).1)
      = l.foldl (fun s i => AES.round s (rks.getD i [])) s := by
  intro l
  induction l with
  | nil => intro s t; rfl
  | cons a l ih => intro s t; simpa only [List.foldl] using ih (AES.round s (rks.getD a [])) _

/-- The instrumented `partially_encrypt_trace` computes the same state as
`partially_encrypt`. -/
lemma partially_encrypt_trace_fst (rks : List (List Nat)) (p : List Nat) (n : Nat) :
    (AES.partially_encrypt_trace rks p n).1 = AES.partially_encrypt rks p n := by
  simp only [AES.partially_encrypt_trace, AES.partially_encrypt]
  by_cases h : n = 10 <;> simp only [h, if_true, if_false, reduceIte] <;>
    rw [foldl_trace_fst]

/-- C3 counterexample: for the cipher built from the FIPS-197 key and its
16-byte plaintext, `partially_encrypt` with `num_rounds = 5` (which satisfies
`1 <= 5 <= 10` and `5 < 10`) executes only 4 round transformations after the
initial AddRoundKey whitening, not 5 as the claim states. -/
theorem partially_encrypt_round_count_counterexample :
    (1 ≤ 5 ∧ 5 ≤ 10 ∧ 5 < 10) ∧
    (AES.partially_encrypt_trace (AES.key_expansion kat_key) kat_pt 5).2.length = 4 ∧
    ¬ (AES.partially_encrypt_trace (AES.key_expansion kat_key) kat_pt 5).2.length = 5 := by
  refine ⟨by decide, rfl, by decide⟩

/-- C3 (amended): for `1 <= num_rounds <= 10`, `partially_encrypt` executes
exactly `num_rounds - 1` main rounds after the initial AddRoundKey whitening
when `num_rounds < 10` — every executed round, including the last one, being
a main round — and exactly 10 rounds (9 main rounds followed by the final
round without MixColumns) when `num_rounds = 10`. -/
theorem partially_encrypt_trace_characterization (rks : List (List Nat))
    (p : List Nat) (n : Nat) (h1 : 1 ≤ n) (h2 : n ≤ 10) :
    (AES.partially_encrypt_trace rks p n).2 =
      List.replicate (n - 1) AES.RoundKind.main ++
        (if n = 10 then [AES.RoundKind.final] else []) := by
  interval_cases n <;> rfl

theorem partially_encrypt_trace_characterization_witness :
    (AES.partially_encrypt_trace (AES.key_expansion kat_key) kat_pt 7).2 =
      List.replicate (7 - 1) AES.RoundKind.main ++
        (if (7 : Nat) = 10 then [AES.RoundKind.final] else []) :=
  partially_encrypt_trace_characterization (AES.key_expansion kat_key) kat_pt 7
    (by decide) (by decide)

/-- C4: constructing the cipher yields the invalid-key-size error exactly when
the key length differs from 16, and every 16-byte key yields the computed key
schedule. -/
theorem mk_invalid_key_size_iff (key : List Nat) :
    ((∃ e, AES.mk key = Except.error e) ↔ key.length ≠ 16) ∧
    (key.length = 16 → AES.mk key = Except.ok (AES.key_expansion key)) := by
  unfold AES.mk
  by_cases h : key.length = 16 <;> simp [h]

theorem mk_invalid_key_size_iff_witness :
    AES.mk kat_key = Except.ok (AES.key_expansion kat_key) :=
  (mk_invalid_key_size_iff kat_key).2 rfl

/-- One expansion step on 4-byte columns produces a 4-byte word. -/
lemma expand_word_length (cols : List (List Nat)) (h4 : 4 ≤ cols.length)
    (hall : ∀ c ∈ cols, c.length = 4) : (AES.expand_word cols).length = 4 := by
  have hne : cols ≠ [] := by
    intro h
    rw [h] at h4
    simp at h4
  have hlast : cols.getLast?.getD [] = cols.getLast hne := by
    rw [List.getLast?_eq_getLast cols hne]
    rfl
  have hwlen : (cols.getLast?.getD []).length = 4 := by
    rw [hlast]
    exact hall _ (List.getLast_mem hne)
  have hprev : (cols.getD (cols.length - 4) []).length = 4 :=
    hall _ (getD_mem_of_lt cols [] _ (by omega))
  by_cases h : cols.length % 4 = 0
  · simp only [AES.expand_word, h, eq_self_iff_true, ite_true, List.length_zipWith,
      List.length_set, List.length_map, List.length_append, List.length_drop,
      List.length_take, hwlen, hprev]
    omega
  · simp only [AES.expand_word, h, ite_false, List.length_zipWith, hwlen, hprev]
    omega

/-- The expansion loop grows by one column per unit of fuel, keeps every
column 4 bytes long, and never changes the first 4 columns. -/
lemma key_expansion_loop_facts : ∀ (n : Nat) (cols : List (List Nat)),
    4 ≤ cols.length → (∀ c ∈ cols, c.length = 4) →
    (AES.key_expansion_loop n cols).length = cols.length + n ∧
    (∀ c ∈ AES.key_expansion_loop n cols, c.length = 4) ∧
    (AES.key_expansion_loop n cols).take 4 = cols.take 4 := by
  intro n
  induction n with
  | zero =>
    intro cols h4 hall
    exact ⟨rfl, hall, rfl⟩
  | succ n ih =>
    intro cols h4 hall
    have hw : (AES.expand_word cols).length = 4 := expand_word_length cols h4 hall
    have hall' : ∀ c ∈ cols ++ [AES.expand_word cols], c.length = 4 := by
      intro c hc
      rcases List.mem_append.mp hc with h | h
      · exact hall c h
      · rw [List.mem_singleton.mp h]
        exact hw
    have h4' : 4 ≤ (cols ++ [AES.expand_word cols]).length := by
      rw [List.length_append]
      omega
    obtain ⟨l1, l2, l3⟩ := ih (cols ++ [AES.expand_word cols]) h4' hall'
    refine ⟨?_, ?_, ?_⟩
    · show (AES.key_expansion_loop n (cols ++ [AES.expand_word cols])).length = cols.length + (n + 1)
      rw [l1, List.length_append]
      simp
      omega
    · exact l2
    · show (AES.key_expansion_loop n (cols ++ [AES.expand_word cols])).take 4 = cols.take 4
      rw [l3, List.take_append_of_le_length h4]

/-- The initial four key columns of a 16-byte key are 4 bytes each. -/
lemma init_columns_length (key : List Nat) (h : key.length = 16) :
    ∀ c ∈ [key.take 4, (key.drop 4).take 4, (key.drop 8).take 4, (key.drop 12).take 4],
      c.length = 4 := by
  intro c hc
  simp only [List.mem_cons, List.mem_singleton] at hc
  rcases hc with rfl | rfl | rfl | rfl | hc
  · simp [h]
  · simp [h]
  · simp [h]
  · simp [h]
  · simp at hc

/-- Concatenating the four 4-byte slices of a 16-byte key recovers the key. -/
lemma take_drop_concat (key : List Nat) (h : key.length = 16) :
    key.take 4 ++ ((key.drop 4).take 4 ++ ((key.drop 8).take 4 ++ (key.drop 12).take 4)) =
      key := by
  have h12 : (key.drop 12).take 4 = key.drop 12 :=
    List.take_of_length_le (by simp [h])
  rw [h12, show key.drop 12 = (key.drop 8).drop 4 by rw [List.drop_drop],
    List.take_append_drop, show key.drop 8 = (key.drop 4).drop 4 by rw [List.drop_drop],
    List.take_append_drop, List.take_append_drop]

/-- Flattening a list of 4-byte words yields 4 bytes per word. -/
lemma flatten_length_of_all4 : ∀ (t : List (List Nat)), (∀ c ∈ t, c.length = 4) →
    t.flatten.length = 4 * t.length := by
  intro t
  induction t with
  | nil => intro; rfl
  | cons a t ih =>
    intro h
    rw [List.flatten_cons, List.length_append, h a (by simp),
      ih (fun c hc => h c (by simp [hc])), List.length_cons]
    ring

/-- The key schedule always holds exactly 11 round keys. -/
lemma key_expansion_length (key : List Nat) : (AES.key_expansion key).length = 11 := by
  simp [AES.key_expansion]

/-- For a 16-byte key, every round key of the schedule is 16 bytes long. -/
lemma key_expansion_mem_length (key : List Nat) (h : key.length = 16) :
    ∀ rk ∈ AES.key_expansion key, rk.length = 16 := by
  intro rk hrk
  simp only [AES.key_expansion, List.mem_map, List.mem_range] at hrk
  obtain ⟨k, hk, rfl⟩ := hrk
  obtain ⟨l1, l2, _⟩ := key_expansion_loop_facts 40
    [key.take 4, (key.drop 4).take 4, (key.drop 8).take 4, (key.drop 12).take 4]
    (by simp) (init_columns_length key h)
  set cols := AES.key_expansion_loop 40
    [key.take 4, (key.drop 4).take 4, (key.drop 8).take 4, (key.drop 12).take 4] with hcols
  have hlen : cols.length = 44 := by rw [l1]; rfl
  have hall : ∀ c ∈ (cols.drop (4 * k)).take 4, c.length = 4 := fun c hc =>
    l2 c (List.mem_of_mem_drop (List.mem_of_mem_take hc))
  rw [flatten_length_of_all4 _ hall, List.length_take, List.length_drop, hlen]
  omega

/-- For a 16-byte key, round key 0 of the schedule is the master key. -/
lemma key_expansion_getD_zero (key : List Nat) (h : key.length = 16) :
    (AES.key_expansion key).getD 0 [] = key := by
  obtain ⟨_, _, l3⟩ := key_expansion_loop_facts 40
    [key.take 4, (key.drop 4).take 4, (key.drop 8).take 4, (key.drop 12).take 4]
    (by simp) (init_columns_length key h)
  simp only [AES.key_expansion]
  rw [List.getD_eq_getElem?_getD, List.getElem?_map,
    show (List.range 11)[0]? = some 0 from rfl, Option.map_some', Option.getD_some,
    show (4 * 0 : Nat) = 0 from rfl, List.drop_zero, l3,
    show ([key.take 4, (key.drop 4).take 4, (key.drop 8).take 4,
      (key.drop 12).take 4].take 4)
      = [key.take 4, (key.drop 4).take 4, (key.drop 8).take 4, (key.drop 12).take 4]
      from rfl,
    show ([key.take 4, (key.drop 4).take 4, (key.drop 8).take 4,
      (key.drop 12).take 4]).flatten
      = key.take 4 ++ ((key.drop 4).take 4 ++ ((key.drop 8).take 4 ++
        ((key.drop 12).take 4 ++ []))) from rfl,
    List.append_nil]
  exact take_drop_concat key h

/-- C5: for every 16-byte key the key schedule has exactly 11 round keys,
each 16 bytes long, and round key 0 is exactly the master key. -/
theorem key_expansion_structure (key : List Nat) (h : key.length = 16) :
    (AES.key_expansion key).length = 11 ∧
    (∀ rk ∈ AES.key_expansion key, rk.length = 16) ∧
    (AES.key_expansion key).getD 0 [] = key :=
  ⟨key_expansion_length key, key_expansion_mem_length key h,
    key_expansion_getD_zero key h⟩

theorem key_expansion_structure_witness :
    (AES.key_expansion kat_key).length = 11 ∧
    (AES.key_expansion kat_key).getD 0 [] = kat_key :=
  ⟨(key_expansion_structure kat_key rfl).1, (key_expansion_structure kat_key rfl).2.2⟩

/-- `mix_column` always outputs 16 bytes. -/
lemma mix_column_length (s : List Nat) : (AES.mix_column s).length = 16 := by
  rw [mix_column_eval]
  rfl

/-- A main round's output length is 16 whenever the round key is 16 bytes. -/
lemma round_length (s rk : List Nat) (hk : rk.length = 16) :
    (AES.round s rk).length = 16 := by
  simp only [AES.round, AES.add_round_key, List.length_zipWith, mix_column_length, hk]
  omega

/-- Folding main rounds over indices whose round keys are all 16 bytes keeps
output length 16. -/
lemma foldl_round_length (rks : List (List Nat)) : ∀ (l : List Nat) (s : List Nat),
    (∀ i ∈ l, (rks.getD i []).length = 16) →
    (l.foldl (fun s i => AES.round s (rks.getD i [])) s).length = 16 ∨
      (l.foldl (fun s i => AES.round s (rks.getD i [])) s) = s := by
  intro l
  induction l with
  | nil => intro s _; exact Or.inr rfl
  | cons a t ih =>
    intro s hall
    rcases ih (AES.round s (rks.getD a [])) (fun i hi => hall i (List.mem_cons_of_mem a hi))
      with h | h
    · exact Or.inl h
    · refine Or.inl ?_
      rw [List.foldl_cons, h]
      exact round_length s _ (hall a (List.mem_cons_self a t))

/-- Every round key of the schedule of a 16-byte key, accessed by `getD` at an
index below 11, is 16 bytes long. -/
lemma key_expansion_getD_length (key : List Nat) (h : key.length = 16) (i : Nat)
    (hi : i < 11) : ((AES.key_expansion key).getD i []).length = 16 :=
  key_expansion_mem_length key h _
    (getD_mem_of_lt _ _ _ (by rw [key_expansion_length key]; exact hi))

/-- C10: for every cipher constructed with a 16-byte key and every plaintext
longer than 16 bytes, `encrypt` returns the same 16-byte block as `encrypt`
on the first 16 bytes: the initial `add_round_key` zips the input against the
16-byte round key 0 and silently discards the excess. -/
theorem encrypt_truncates_long_plaintext (key p : List Nat) (hk : key.length = 16)
    (hp : 16 < p.length) :
    AES.encrypt (AES.key_expansion key) p = AES.encrypt (AES.key_expansion key) (p.take 16) ∧
    (AES.encrypt (AES.key_expansion key) p).length = 16 := by
  have hrk0 : ((AES.key_expansion key).getD 0 []).length = 16 :=
    key_expansion_getD_length key hk 0 (by omega)
  have first : AES.add_round_key p ((AES.key_expansion key).getD 0 [])
      = AES.add_round_key (p.take 16) ((AES.key_expansion key).getD 0 []) := by
    unfold AES.add_round_key
    rw [← zipWith_take_left (fun b k => b ^^^ k) ((AES.key_expansion key).getD 0 []) p,
      ← zipWith_take_left (fun b k => b ^^^ k) ((AES.key_expansion key).getD 0 [])
        (p.take 16), hrk0, List.take_take, Nat.min_self]
  constructor
  · simp only [AES.encrypt]
    rw [first]
  · have hstate : (AES.add_round_key p ((AES.key_expansion key).getD 0 [])).length = 16 := by
      simp only [AES.add_round_key, List.length_zipWith, hrk0]
      omega
    have hrange : (List.range' 1 9) = [1, 2, 3, 4, 5, 6, 7, 8, 9] := rfl
    have hall : ∀ i ∈ List.range' 1 9, ((AES.key_expansion key).getD i []).length = 16 := by
      intro i hi
      rw [hrange] at hi
      refine key_expansion_getD_length key hk i ?_
      simp only [List.mem_cons, List.mem_singleton] at hi
      rcases hi with rfl | rfl | rfl | rfl | rfl | rfl | rfl | rfl | rfl | hi
      all_goals first
        | omega
        | simp at hi
    have hmid : ((List.range' 1 9).foldl
        (fun s i => AES.round s ((AES.key_expansion key).getD i []))
        (AES.add_round_key p ((AES.key_expansion key).getD 0 []))).length = 16 := by
      rcases foldl_round_length (AES.key_expansion key) (List.range' 1 9)
        (AES.add_round_key p ((AES.key_expansion key).getD 0 [])) hall with h | h
      · exact h
      · rw [h]; exact hstate
    have hrk10 : ((AES.key_expansion key).getD 10 []).length = 16 :=
      key_expansion_getD_length key hk 10 (by omega)
    simp only [AES.encrypt, AES.final_round, AES.add_round_key, List.length_zipWith,
      hrk10]
    rw [shift_rows_eval]
    simp

theorem encrypt_truncates_long_plaintext_witness :
    AES.encrypt (AES.key_expansion kat_key) (kat_pt ++ [0xAB, 0xCD])
        = AES.encrypt (AES.key_expansion kat_key) ((kat_pt ++ [0xAB, 0xCD]).take 16) ∧
    (AES.encrypt (AES.key_expansion kat_key) (kat_pt ++ [0xAB, 0xCD])).length = 16 :=
  encrypt_truncates_long_plaintext kat_key (kat_pt ++ [0xAB, 0xCD]) rfl (by decide)
